import Mathlib

/-!
# Verification of the Y-junction import pipeline

Shallow embedding of the junction extraction pipeline of the
`y-junctions` backend (Rust).  Floating-point coordinates, bearings and
elevations are modelled as rationals (`ℚ`); the spherical bearing
computed by the `geo` crate (`haversine_bearing`) is kept abstract as a
function parameter `hb`, since none of the verified properties depend on
the trigonometric formula, only on its output range (the crate returns
degrees in `(-180, 180]`).  Rust `HashMap`s are modelled as association
lists with first-insertion iteration order (the Rust order is
unspecified; no verified property depends on it), and `HashSet`s of way
ids as duplicate-free lists in insertion order.
-/

namespace YJ

/-- Rust `f64::round`: round half away from zero.  For the values that
occur in the pipeline (non-negative angles) this is `⌊x + 1/2⌋`. -/
def rustRound (q : ℚ) : ℤ :=
  if 0 ≤ q then ⌊q + 1 / 2⌋ else -⌊-q + 1 / 2⌋

/-- Rust `as i16` float-to-int cast (saturating). -/
def i16sat (n : ℤ) : ℤ :=
  max (-32768) (min 32767 n)

/-! ## Association lists standing in for `HashMap` -/

/-- `HashMap` lookup. -/
def lookupA {κ α : Type} [DecidableEq κ] : List (κ × α) → κ → Option α
  | [], _ => none
  | (k, v) :: rest, k' => if k = k' then some v else lookupA rest k'

/-- `HashMap` entry update: replace the value at `k` (computed from the
old one via `f`), appending a fresh entry when `k` is absent.  Models
both `insert` (constant `f`) and `entry(k).or_default()` updates. -/
def updateA {κ α : Type} [DecidableEq κ] : List (κ × α) → κ → (Option α → α) → List (κ × α)
  | [], k, f => [(k, f none)]
  | (k', v) :: rest, k, f =>
      if k' = k then (k, f (some v)) :: rest else (k', v) :: updateA rest k f

/-- `HashSet<i64>` insert, modelled on duplicate-free lists. -/
def insertSet (l : List Int) (x : Int) : List Int :=
  if x ∈ l then l else l ++ [x]

theorem lookupA_updateA_self {κ α : Type} [DecidableEq κ] (m : List (κ × α)) (k : κ)
    (f : Option α → α) :
    lookupA (updateA m k f) k = some (f (lookupA m k)) := by
  induction m with
  | nil => simp [updateA, lookupA]
  | cons p rest ih =>
      obtain ⟨k', v⟩ := p
      by_cases h : k' = k
      · subst h; simp [updateA, lookupA]
      · simp [updateA, lookupA, h, ih]

theorem lookupA_updateA_other {κ α : Type} [DecidableEq κ] (m : List (κ × α)) (k k' : κ)
    (f : Option α → α) (h : k' ≠ k) :
    lookupA (updateA m k f) k' = lookupA m k' := by
  induction m with
  | nil => simp [updateA, lookupA, Ne.symm h]
  | cons p rest ih =>
      obtain ⟨k₀, v⟩ := p
      by_cases h0 : k₀ = k
      · subst h0
        simp [updateA, lookupA, Ne.symm h]
      · simp only [updateA, h0, if_false]
        by_cases h1 : k₀ = k'
        · subst h1; simp [lookupA]
        · simp [lookupA, h1, ih]

theorem mem_insertSet {l : List Int} {x y : Int} :
    y ∈ insertSet l x ↔ y ∈ l ∨ y = x := by
  unfold insertSet
  by_cases h : x ∈ l
  · simp only [h, if_true]
    constructor
    · exact Or.inl
    · rintro (hy | rfl) <;> assumption
  · simp [h]

theorem nodup_insertSet {l : List Int} {x : Int} (h : l.Nodup) :
    (insertSet l x).Nodup := by
  unfold insertSet
  by_cases hx : x ∈ l
  · simpa [hx]
  · simp [hx, List.nodup_append, h]

/-! ## `calculator.rs` -/

/-- `calculate_bearing` (calculator.rs): bearing from the center to a
point, normalized to `[0, 360)` by adding 360 to negative values.
`hb` abstracts `geo::HaversineBearing::haversine_bearing`. -/
def calculate_bearing (hb : ℚ → ℚ → ℚ → ℚ → ℚ) (lat1 lon1 lat2 lon2 : ℚ) : ℚ :=
  let bearing := hb lat1 lon1 lat2 lon2
  if bearing < 0 then bearing + 360 else bearing

/-- `calculate_junction_angles` (calculator.rs): `None` unless exactly
three neighbor points; otherwise sorts the three center→neighbor
bearings ascending (Rust `sort_by(partial_cmp)`, modelled by the stable
`insertionSort`) and returns the rounded consecutive differences
together with the sorted bearings. -/
def calculate_junction_angles (hb : ℚ → ℚ → ℚ → ℚ → ℚ)
    (center_lat center_lon : ℚ) (points : List (ℚ × ℚ)) :
    Option ((ℤ × ℤ × ℤ) × (ℚ × ℚ × ℚ)) :=
  if points.length ≠ 3 then none
  else
    let bearings := List.insertionSort (· ≤ ·)
      (points.map fun p => calculate_bearing hb center_lat center_lon p.1 p.2)
    match bearings with
    | [b0, b1, b2] =>
        some ((i16sat (rustRound (b1 - b0)),
               i16sat (rustRound (b2 - b1)),
               i16sat (rustRound (360 - b2 + b0))),
              (b0, b1, b2))
    | _ => none

/-! ## `detector.rs` -/

/-- `WayTagInfo` (detector.rs): bridge/tunnel flags of a way. -/
structure WayTagInfo where
  bridge : Bool
  tunnel : Bool
deriving DecidableEq, Repr

instance : Inhabited WayTagInfo := ⟨⟨false, false⟩⟩

/-- `NodeConnectionCounter` (detector.rs).  `node_to_ways` maps a node id
to the set of way ids containing it (`HashSet`, modelled as a
duplicate-free list), `way_nodes` maps a way id to its ordered node
list, `way_tags` maps a way id to its tags. -/
structure NodeConnectionCounter where
  node_to_ways : List (Int × List Int)
  way_nodes : List (Int × List Int)
  way_tags : List (Int × WayTagInfo)

def NodeConnectionCounter.empty : NodeConnectionCounter := ⟨[], [], []⟩

/-- The accepted highway classes hard-coded in
`NodeConnectionCounter::new`. -/
def valid_highway_types : List String :=
  ["motorway", "trunk", "primary", "secondary", "tertiary",
   "residential", "unclassified", "service",
   "motorway_link", "trunk_link", "primary_link", "secondary_link",
   "tertiary_link"]

/-- `is_valid_highway_type` (detector.rs). -/
def is_valid_highway_type (highway_type : String) : Bool :=
  valid_highway_types.contains highway_type

/-- `add_way` (detector.rs): stores the way's node list and tags and
inserts the way id into each referenced node's way set. -/
def NodeConnectionCounter.add_way (c : NodeConnectionCounter) (way_id : Int)
    (node_ids : List Int) (bridge tunnel : Bool) : NodeConnectionCounter :=
  { way_nodes := updateA c.way_nodes way_id fun _ => node_ids
    way_tags := updateA c.way_tags way_id fun _ => ⟨bridge, tunnel⟩
    node_to_ways :=
      node_ids.foldl (fun m node_id => updateA m node_id fun o => insertSet (o.getD []) way_id)
        c.node_to_ways }

/-- Per-way neighbor selection: the loop body shared by
`get_neighboring_nodes` and `get_neighbors_with_tags` (detector.rs).
Finds the first occurrence of the junction node in the way's node list
and returns the node at the next position if it exists, else at the
previous position, else nothing. -/
def neighbor_in_way (nodes : List Int) (junction_node_id : Int) : Option Int :=
  match nodes.findIdx? (· = junction_node_id) with
  | none => none
  | some pos =>
      match nodes.get? (pos + 1) with
      | some nxt => some nxt
      | none => if 0 < pos then nodes.get? (pos - 1) else none

/-- `get_neighboring_nodes` (detector.rs): one neighbor per connected
way, skipping ways where the selection fails. -/
def NodeConnectionCounter.get_neighboring_nodes (c : NodeConnectionCounter)
    (junction_node_id : Int) : List Int :=
  match lookupA c.node_to_ways junction_node_id with
  | none => []
  | some way_ids =>
      way_ids.filterMap fun way_id =>
        (lookupA c.way_nodes way_id).bind fun nodes => neighbor_in_way nodes junction_node_id

/-- `get_neighbors_with_tags` (detector.rs): neighbor node ids paired
with the owning way's tags, in way-set iteration order (no sorting). -/
def NodeConnectionCounter.get_neighbors_with_tags (c : NodeConnectionCounter)
    (junction_node_id : Int) : List (Int × WayTagInfo) :=
  match lookupA c.node_to_ways junction_node_id with
  | none => []
  | some way_ids =>
      way_ids.filterMap fun way_id =>
        (lookupA c.way_nodes way_id).bind fun nodes =>
          (neighbor_in_way nodes junction_node_id).map fun neighbor_id =>
            (neighbor_id, (lookupA c.way_tags way_id).getD default)

/-- `YJunctionCandidate` (detector.rs). -/
structure YJunctionCandidate where
  node_id : Int
  connected_ways : List Int

/-- `find_y_junction_candidates` (detector.rs): all nodes whose way set
has exactly 3 elements. -/
def NodeConnectionCounter.find_y_junction_candidates (c : NodeConnectionCounter) :
    List YJunctionCandidate :=
  c.node_to_ways.filterMap fun p =>
    if p.2.length = 3 then some ⟨p.1, p.2⟩ else none

/-! ## `parser.rs` -/

/-- An OSM element as seen by the streaming reader: nodes carry
coordinates, ways carry ordered node refs and a tag map.  Rust's `Node`
and `DenseNode` cases are handled identically by the parser and are
merged here. -/
inductive Element where
  | node : Int → ℚ → ℚ → Element
  | way : Int → List Int → List (String × String) → Element

/-- First `highway` tag of a way (`way.tags().find(k == "highway")`). -/
def wayHighway (tags : List (String × String)) : Option String :=
  (tags.find? fun kv => kv.1 = "highway").map (·.2)

/-- A way is admitted to the adjacency index iff it has a `highway` tag
whose value is an accepted class (parser.rs pass 1). -/
def way_admitted (tags : List (String × String)) : Bool :=
  match wayHighway tags with
  | some ht => is_valid_highway_type ht
  | none => false

/-- The pass-1 visitor of `parse_pbf`: ways with an accepted `highway`
tag are added to the counter, everything else is ignored.  Note:
parser.rs calls `add_way` with only the highway type (this snapshot's
call site predates the bridge/tunnel plumbing of detector.rs), so the
stored tags are defaults; no field of the records emitted by
`parse_pbf` reads them. -/
def pass1_step (c : NodeConnectionCounter) (e : Element) : NodeConnectionCounter :=
  match e with
  | .way way_id refs tags =>
      if way_admitted tags then c.add_way way_id refs false false else c
  | .node _ _ _ => c

/-- Pass 1 of `parse_pbf`: build the `NodeConnectionCounter` from the
admitted highway ways. -/
def pass1 (elements : List Element) : NodeConnectionCounter :=
  elements.foldl pass1_step NodeConnectionCounter.empty

/-- The pass-2 visitor of `parse_pbf`: record a candidate node's
coordinate only when it lies within the bounding box (all four
comparisons inclusive: `>=` / `<=` in the source). -/
def pass2_step (candidate_node_ids : List Int) (min_lon min_lat max_lon max_lat : ℚ)
    (m : List (Int × (ℚ × ℚ))) (e : Element) : List (Int × (ℚ × ℚ)) :=
  match e with
  | .node node_id lat lon =>
      if node_id ∈ candidate_node_ids then
        if min_lon ≤ lon ∧ lon ≤ max_lon ∧ min_lat ≤ lat ∧ lat ≤ max_lat then
          updateA m node_id fun _ => (lat, lon)
        else m
      else m
  | .way _ _ _ => m

/-- Pass 2 of `parse_pbf`: coordinates of candidate nodes within the
bounding box. -/
def pass2 (elements : List Element) (candidate_node_ids : List Int)
    (min_lon min_lat max_lon max_lat : ℚ) : List (Int × (ℚ × ℚ)) :=
  elements.foldl (pass2_step candidate_node_ids min_lon min_lat max_lon max_lat) []

/-- The pass-3 visitor of `parse_pbf`: record every neighbor node's
coordinate; there is no bounding box check at all. -/
def pass3_step (all_neighbor_ids : List Int)
    (m : List (Int × (ℚ × ℚ))) (e : Element) : List (Int × (ℚ × ℚ)) :=
  match e with
  | .node node_id lat lon =>
      if node_id ∈ all_neighbor_ids then updateA m node_id fun _ => (lat, lon) else m
  | .way _ _ _ => m

/-- Pass 3 of `parse_pbf`: coordinates of all neighbor nodes. -/
def pass3 (elements : List Element) (all_neighbor_ids : List Int) :
    List (Int × (ℚ × ℚ)) :=
  elements.foldl (pass3_step all_neighbor_ids) []

/-- `YJunctionWithCoords` (detector.rs). -/
structure YJunctionWithCoords where
  node_id : Int
  lat : ℚ
  lon : ℚ
  connected_ways : List Int

/-- `JunctionForInsert` as constructed by parser.rs (the elevation block
is omitted: the claims verified here exercise the pipeline without an
elevation directory, in which case every elevation field is `None`). -/
structure JunctionForInsert where
  osm_node_id : Int
  lat : ℚ
  lon : ℚ
  angle_1 : ℤ
  angle_2 : ℤ
  angle_3 : ℤ
  bearings : ℚ × ℚ × ℚ
deriving DecidableEq

/-- `min_angle` as computed in parser.rs (`angles.iter().min()`). -/
def minAngle (j : JunctionForInsert) : ℤ :=
  min j.angle_1 (min j.angle_2 j.angle_3)

/-- One iteration of the per-candidate assembly loop of `parse_pbf`:
requires three neighbor selections, three resolved neighbor
coordinates, a successful angle computation, and a minimum angle below
60° (otherwise the candidate is a T-junction and is skipped). -/
def emit_junction (hb : ℚ → ℚ → ℚ → ℚ → ℚ) (counter : NodeConnectionCounter)
    (neighbor_coords : List (Int × (ℚ × ℚ))) (j : YJunctionWithCoords) :
    Option JunctionForInsert :=
  let neighbor_ids := counter.get_neighboring_nodes j.node_id
  if neighbor_ids.length ≠ 3 then none
  else
    let neighbor_points := neighbor_ids.filterMap fun nid => lookupA neighbor_coords nid
    if neighbor_points.length ≠ 3 then none
    else
      match calculate_junction_angles hb j.lat j.lon neighbor_points with
      | none => none
      | some (angles, bearings) =>
          let min_angle := min angles.1 (min angles.2.1 angles.2.2)
          if 60 ≤ min_angle then none
          else some ⟨j.node_id, j.lat, j.lon, angles.1, angles.2.1, angles.2.2, bearings⟩

/-- `parse_pbf` (parser.rs), with the element stream and the bearing
function abstracted. -/
def parse_pbf (hb : ℚ → ℚ → ℚ → ℚ → ℚ) (elements : List Element)
    (min_lon min_lat max_lon max_lat : ℚ) : List JunctionForInsert :=
  let counter := pass1 elements
  let candidates := counter.find_y_junction_candidates
  if candidates.isEmpty then []
  else
    let candidate_node_ids := candidates.map (·.node_id)
    let node_coords := pass2 elements candidate_node_ids min_lon min_lat max_lon max_lat
    let y_junctions : List YJunctionWithCoords :=
      candidates.filterMap fun c =>
        (lookupA node_coords c.node_id).map fun ll => ⟨c.node_id, ll.1, ll.2, c.connected_ways⟩
    let all_neighbor_ids :=
      y_junctions.foldl
        (fun s j => (counter.get_neighboring_nodes j.node_id).foldl insertSet s) []
    let neighbor_coords := pass3 elements all_neighbor_ids
    y_junctions.filterMap (emit_junction hb counter neighbor_coords)

/-! ## `elevation.rs` -/

/-- Rust `i32 /`: truncated division (toward zero); `Int.div` in Lean. -/
def rustDiv (a b : ℤ) : ℤ := Int.tdiv a b

/-- Rust `i32 %`: truncated remainder (sign of the dividend). -/
def rustMod (a b : ℤ) : ℤ := Int.tmod a b

/-- `calculate_mesh_code` (elevation.rs): the standard Japanese mesh
code `"PP-QQ-RR"` derived from latitude/longitude. -/
def calculate_mesh_code (lat lon : ℚ) : String :=
  let lat_mesh : ℤ := ⌊lat * 120⌋
  let lon_mesh : ℤ := ⌊(lon - 100) * 80⌋
  let first_mesh := toString (rustDiv lat_mesh 80) ++ toString (rustDiv lon_mesh 80)
  let second_mesh := toString (rustMod (rustDiv lat_mesh 10) 8)
    ++ toString (rustMod (rustDiv lon_mesh 10) 8)
  let third_mesh := toString (rustMod lat_mesh 10) ++ toString (rustMod lon_mesh 10)
  first_mesh ++ "-" ++ second_mesh ++ "-" ++ third_mesh

/-- f64 `clamp` applied after `round` and before `as usize`
(elevation.rs grid indexing), on integers. -/
def clampI (n lo hi : ℤ) : ℤ := max lo (min hi n)

/-- `GsiTile` (elevation.rs): one parsed DEM XML tile. -/
structure GsiTile where
  lower_corner : ℚ × ℚ
  upper_corner : ℚ × ℚ
  grid_width : Nat
  grid_height : Nat
  elevations : List ℚ
deriving DecidableEq

/-- `GsiTile::contains` (elevation.rs). -/
def GsiTile.containsPt (t : GsiTile) (lat lon : ℚ) : Prop :=
  t.lower_corner.1 ≤ lat ∧ lat ≤ t.upper_corner.1 ∧
    t.lower_corner.2 ≤ lon ∧ lon ≤ t.upper_corner.2

instance (t : GsiTile) (lat lon : ℚ) : Decidable (t.containsPt lat lon) := by
  unfold GsiTile.containsPt; infer_instance

/-- The flat grid index computed by `GsiTile::get_elevation`
(elevation.rs): fractional position in the envelope, scaled to the
grid, rounded, clamped, combined row-major (`y * width + x`). -/
def GsiTile.gridIndex (t : GsiTile) (lat lon : ℚ) : Nat :=
  let lat_frac := (lat - t.lower_corner.1) / (t.upper_corner.1 - t.lower_corner.1)
  let lon_frac := (lon - t.lower_corner.2) / (t.upper_corner.2 - t.lower_corner.2)
  let x := (clampI (rustRound (lon_frac * ((t.grid_width - 1 : ℕ) : ℚ)))
    0 ((t.grid_width - 1 : ℕ) : ℤ)).toNat
  let y := (clampI (rustRound ((1 - lat_frac) * ((t.grid_height - 1 : ℕ) : ℚ)))
    0 ((t.grid_height - 1 : ℕ) : ℤ)).toNat
  y * t.grid_width + x

/-- `GsiTile::get_elevation` (elevation.rs): `None` outside the
envelope, otherwise the elevation at the clamped rounded grid index if
that index is within the (possibly partial) elevation array. -/
def GsiTile.get_elevation (t : GsiTile) (lat lon : ℚ) : Option ℚ :=
  if t.containsPt lat lon then t.elevations.get? (t.gridIndex lat lon)
  else none

/-- `ElevationProvider` (elevation.rs).  The filesystem is abstracted
away: `mesh_to_file` maps a mesh code directly to the outcome of
`parse_xml_file` on the indexed file (`some tile` when the file reads
and parses, `none` when any read or parse error occurs — both are
caught by `get_elevation`).  `parse_xml_file` is a pure function of the
file contents, which are fixed for a given provider, so this outcome
abstraction is faithful. -/
structure ElevationProvider where
  cache : List (String × GsiTile)
  mesh_to_file : List (String × Option GsiTile)

/-- `ElevationProvider::get_elevation` (elevation.rs): serve from the
tile cache when possible; otherwise parse the indexed file, memoize it
on success, and translate every failure into `Ok(None)`. -/
def ElevationProvider.get_elevation (p : ElevationProvider) (lat lon : ℚ) :
    Except String (Option ℚ) × ElevationProvider :=
  let mesh_code := calculate_mesh_code lat lon
  match lookupA p.cache mesh_code with
  | some tile => (.ok (tile.get_elevation lat lon), p)
  | none =>
      match lookupA p.mesh_to_file mesh_code with
      | some (some tile) =>
          (.ok (tile.get_elevation lat lon),
            { p with cache := updateA p.cache mesh_code fun _ => tile })
      | some none => (.ok none, p)
      | none => (.ok none, p)

/-! ## Spec-side definitions used for comparison -/

/-- Ordering of `(bearing, tag)` pairs by bearing. -/
def bearingLe (a b : ℚ × WayTagInfo) : Prop := a.1 ≤ b.1

instance : DecidableRel bearingLe :=
  fun a b => inferInstanceAs (Decidable (a.1 ≤ b.1))

/-- Modelled from the spec: §9 requires implementations to "carry
way-tags through the same permutation, either by sorting tuples
`(bearing, tag)` jointly or by constructing a permutation index".
This is the joint sort that the pipeline would need but does not
perform: parser.rs never reads bridge/tunnel tags, never calls
`get_neighbors_with_tags`, and `calculate_junction_angles` sorts the
bearings alone. -/
def spec_joint_sort (hb : ℚ → ℚ → ℚ → ℚ → ℚ) (center_lat center_lon : ℚ)
    (pts : List ((ℚ × ℚ) × WayTagInfo)) : List (ℚ × WayTagInfo) :=
  List.insertionSort bearingLe
    (pts.map fun p => (calculate_bearing hb center_lat center_lon p.1.1 p.1.2, p.2))

/-- Modelled from the spec: the C8 grid-lookup formula —
`x = round(xFrac·(W−1))` clamped to `[0, W−1]`,
`y = round((1−yFrac)·(H−1))` clamped to `[0, H−1]`, result
`elevations[y·W + x]` if in range else `None` — stated, as in the
claim, without any envelope-containment precondition. -/
def spec_grid_lookup (t : GsiTile) (lat lon : ℚ) : Option ℚ :=
  let xFrac := (lon - t.lower_corner.2) / (t.upper_corner.2 - t.lower_corner.2)
  let yFrac := (lat - t.lower_corner.1) / (t.upper_corner.1 - t.lower_corner.1)
  let x := (clampI (rustRound (xFrac * ((t.grid_width - 1 : ℕ) : ℚ)))
    0 ((t.grid_width - 1 : ℕ) : ℤ)).toNat
  let y := (clampI (rustRound ((1 - yFrac) * ((t.grid_height - 1 : ℕ) : ℚ)))
    0 ((t.grid_height - 1 : ℕ) : ℤ)).toNat
  t.elevations.get? (y * t.grid_width + x)

/-- Way set of a node in the counter (empty when the node is unknown,
matching `get_connection_count`'s `unwrap_or(0)` convention). -/
def waysOf (c : NodeConnectionCounter) (nid : Int) : List Int :=
  (lookupA c.node_to_ways nid).getD []

/-! ## Concrete inputs for counterexamples and witnesses

A concrete stand-in for the spherical bearing is needed to run the
pipeline on explicit inputs; `pseudoBearing` plays that role.  Like the
real `haversine_bearing` it maps equal coordinates to equal bearings —
the property that matters for the colinear-roads counterexample — and
its output range is bounded (the clamp is inert on every concrete input
used below). -/

def pseudoBearing : ℚ → ℚ → ℚ → ℚ → ℚ := fun _ _ lat lon =>
  if -360 < lat + lon ∧ lat + lon < 360 then lat + lon else 0

/-- Three residential ways meeting at node 1; nodes 2 and 3 sit at the
same coordinate, so two of the three bearings coincide and the smallest
angle is 0. -/
def elemsC2 : List Element :=
  [ .way 101 [1, 2] [("highway", "residential")],
    .way 102 [1, 3] [("highway", "residential")],
    .way 103 [1, 4] [("highway", "residential")],
    .node 1 0 0, .node 2 5 5, .node 3 5 5, .node 4 (-5) (-5) ]

/-- Two ways sharing both endpoints (parallel edges 1–2) plus a third
way, so the neighbor selections of node 1 are `[2, 2, 3]` — three
successes but not three distinct ids. -/
def elemsC5 : List Element :=
  [ .way 201 [1, 2] [("highway", "residential")],
    .way 202 [1, 2] [("highway", "residential")],
    .way 203 [1, 3] [("highway", "residential")],
    .node 1 0 0, .node 2 1 1, .node 3 (-1) 2 ]

/-- A junction (node 1) whose first-added way (id 10, a bridge) leads to
the neighbor with the middle bearing: the way-set iteration order
`[10, 20, 30]` does not survive the bearing sort. -/
def counterC1 : NodeConnectionCounter :=
  ((NodeConnectionCounter.empty.add_way 10 [1, 2] true false).add_way
      20 [1, 3] false false).add_way 30 [1, 4] false false

/-- Neighbor coordinates for the `counterC1` junction: bearings (under
`pseudoBearing` from center (0,0)) are 200 for node 2, 100 for node 3,
300 for node 4. -/
def coordC1 (nid : Int) : ℚ × ℚ :=
  if nid = 2 then (200, 0) else if nid = 3 then (100, 0) else (300, 0)

/-- The (coordinate, tag) pairs of `counterC1`'s junction in way-set
iteration order, as `get_neighbors_with_tags` yields them. -/
def pairsC1 : List ((ℚ × ℚ) × WayTagInfo) :=
  (counterC1.get_neighbors_with_tags 1).map fun p => (coordC1 p.1, p.2)

/-- A 2×2 DEM tile with envelope `[0,1] × [0,1]`. -/
def tileC8 : GsiTile := ⟨(0, 0), (1, 1), 2, 2, [10, 11, 12, 13]⟩

/-- A provider that indexes `tileC8` under the mesh code of
`(35.005, 138.005)` — a point outside the tile's envelope. -/
def provC8 : ElevationProvider :=
  ⟨[], [(calculate_mesh_code (7001 / 200) (27601 / 200), some tileC8)]⟩

/-- A 2×2 DEM tile whose envelope `[35,36] × [138,139]` does contain
`(35.005, 138.005)`. -/
def tileW : GsiTile := ⟨(35, 138), (36, 139), 2, 2, [10, 11, 12, 13]⟩

/-- A provider with `tileW` already cached under the mesh code of
`(35.005, 138.005)`. -/
def provW : ElevationProvider :=
  ⟨[(calculate_mesh_code (7001 / 200) (27601 / 200), tileW)], []⟩

/-! ## Elevation lookup: C8, C9, C10 -/

/-- C8 (counterexample): the claimed grid formula, which has no
envelope-containment precondition, yields `some 11` for a point whose
mesh code is indexed to a tile that does not contain it — yet
`get_elevation` returns `Ok(None)`, because `GsiTile::get_elevation`
first checks `contains` and bails out. -/
theorem elevation_lookup_counterexample :
    (provC8.get_elevation (7001 / 200) (27601 / 200)).1 = .ok none
    ∧ spec_grid_lookup tileC8 (7001 / 200) (27601 / 200) = some 11 := by
  constructor
  · have hc : lookupA provC8.cache (calculate_mesh_code (7001 / 200) (27601 / 200)) = none := by
      simp [provC8, lookupA]
    have hf : lookupA provC8.mesh_to_file (calculate_mesh_code (7001 / 200) (27601 / 200))
        = some (some tileC8) := by
      simp [provC8, lookupA]
    have hcont : ¬ tileC8.containsPt (7001 / 200) (27601 / 200) := by
      norm_num [tileC8, GsiTile.containsPt]
    simp [ElevationProvider.get_elevation, hc, hf, GsiTile.get_elevation, hcont]
  · norm_num [spec_grid_lookup, tileC8, rustRound, clampI]

/-- C8 (amended): `GsiTile::get_elevation` returns `None` whenever the
coordinate is outside the tile envelope, and otherwise agrees exactly
with the claimed formula `elevations[y·W + x]` (with the claimed
rounded-and-clamped `x` and `y`, `None` when the flat index is out of
range of a partial tile); `ElevationProvider::get_elevation` returns
`Ok(None)` without aborting when no file is indexed for the mesh code
or when the tile fails to parse, and otherwise returns `Ok` of the
tile-level lookup (served from the cache when present). -/
theorem elevation_lookup_amended (p : ElevationProvider) (t : GsiTile) (lat lon : ℚ) :
    (¬ t.containsPt lat lon → t.get_elevation lat lon = none)
    ∧ (t.containsPt lat lon → t.get_elevation lat lon = spec_grid_lookup t lat lon)
    ∧ (lookupA p.cache (calculate_mesh_code lat lon) = none →
        lookupA p.mesh_to_file (calculate_mesh_code lat lon) = none →
        (p.get_elevation lat lon).1 = .ok none)
    ∧ (lookupA p.cache (calculate_mesh_code lat lon) = none →
        lookupA p.mesh_to_file (calculate_mesh_code lat lon) = some none →
        (p.get_elevation lat lon).1 = .ok none)
    ∧ (lookupA p.cache (calculate_mesh_code lat lon) = some t →
        (p.get_elevation lat lon).1 = .ok (t.get_elevation lat lon))
    ∧ (lookupA p.cache (calculate_mesh_code lat lon) = none →
        lookupA p.mesh_to_file (calculate_mesh_code lat lon) = some (some t) →
        (p.get_elevation lat lon).1 = .ok (t.get_elevation lat lon)) :=
  ⟨fun h => by simp [GsiTile.get_elevation, h],
   fun h => by simp [GsiTile.get_elevation, spec_grid_lookup, GsiTile.gridIndex, h],
   fun hc hf => by simp [ElevationProvider.get_elevation, hc, hf],
   fun hc hf => by simp [ElevationProvider.get_elevation, hc, hf],
   fun hc => by simp [ElevationProvider.get_elevation, hc],
   fun hc hf => by simp [ElevationProvider.get_elevation, hc, hf]⟩

/-- C8 (witness): for a cached tile whose envelope does contain the
query point, the provider returns exactly the claimed formula's value. -/
theorem elevation_lookup_amended_witness :
    GsiTile.containsPt tileW (7001 / 200) (27601 / 200)
    ∧ (provW.get_elevation (7001 / 200) (27601 / 200)).1
        = .ok (spec_grid_lookup tileW (7001 / 200) (27601 / 200)) := by
  have hcont : GsiTile.containsPt tileW (7001 / 200) (27601 / 200) := by
    norm_num [tileW, GsiTile.containsPt]
  have h := elevation_lookup_amended provW tileW (7001 / 200) (27601 / 200)
  refine ⟨hcont, ?_⟩
  rw [h.2.2.2.2.1 (by simp [provW, lookupA]), h.2.1 hcont]

/-- C9: for a fixed set of DEM files, repeated `get_elevation` calls at
the same coordinate return the same value: the first call parses and
memoizes the tile, and a second call (served from the cache when the
first call cached anything) yields an identical result. -/
theorem elevation_lookup_idempotent (p : ElevationProvider) (lat lon : ℚ) :
    ((p.get_elevation lat lon).2.get_elevation lat lon).1
      = (p.get_elevation lat lon).1 := by
  unfold ElevationProvider.get_elevation
  cases hc : lookupA p.cache (calculate_mesh_code lat lon) with
  | some tile => simp [hc]
  | none =>
      cases hf : lookupA p.mesh_to_file (calculate_mesh_code lat lon) with
      | none => simp [hc, hf]
      | some ot =>
          cases ot with
          | none => simp [hc, hf]
          | some tile => simp [hc, hf, lookupA_updateA_self]

/-- C10: `ElevationProvider::get_elevation` never returns its error
variant — every path (cache hit, successful parse, unindexed mesh code,
read/parse failure) produces `Ok`. -/
theorem get_elevation_never_errs (p : ElevationProvider) (lat lon : ℚ) :
    ∃ v, (p.get_elevation lat lon).1 = Except.ok v := by
  unfold ElevationProvider.get_elevation
  cases hc : lookupA p.cache (calculate_mesh_code lat lon) with
  | some tile => exact ⟨tile.get_elevation lat lon, by simp [hc]⟩
  | none =>
      cases hf : lookupA p.mesh_to_file (calculate_mesh_code lat lon) with
      | none => exact ⟨none, by simp [hc, hf]⟩
      | some ot =>
          cases ot with
          | none => exact ⟨none, by simp [hc, hf]⟩
          | some tile => exact ⟨tile.get_elevation lat lon, by simp [hc, hf]⟩

/-! ## Neighbor selection: C6 -/

theorem findIdx?_first {nodes : List Int} {j : Int} {pos : ℕ}
    (h1 : pos < nodes.length) (h2 : nodes.get ⟨pos, h1⟩ = j)
    (h3 : j ∉ nodes.take pos) :
    nodes.findIdx? (· = j) = some pos := by
  induction nodes generalizing pos with
  | nil => simp at h1
  | cons a rest ih =>
      cases pos with
      | zero =>
          simp only [List.get] at h2
          simp [List.findIdx?_cons, h2]
      | succ n =>
          have hmem : j ∉ a :: rest.take n := by
            simpa using h3
          have ha : ¬(a = j) := fun hh => hmem (hh ▸ List.mem_cons_self a _)
          have h3' : j ∉ rest.take n := fun hh => hmem (List.mem_cons_of_mem a hh)
          have h1' : n < rest.length := by simpa using h1
          have h2' : rest.get ⟨n, h1'⟩ = j := h2
          rw [List.findIdx?_cons, if_neg (by simpa using ha), List.findIdx?_succ,
            ih h1' h2' h3']
          rfl

/-- C6: per-way neighbor selection locates the first occurrence of the
junction node (characterized extensionally: the entry at `pos` is the
junction and no earlier entry is) and returns the node at `pos + 1` if
present, else the node at `pos - 1` if `pos > 0`, else nothing; when
the junction does not occur in the way it returns nothing.  The loop
case — a way visiting the junction twice — is the first-occurrence
instance. -/
theorem neighbor_selection_spec (nodes : List Int) (j : Int) :
    (j ∉ nodes → neighbor_in_way nodes j = none)
    ∧ ∀ (pos : ℕ) (h1 : pos < nodes.length), nodes.get ⟨pos, h1⟩ = j →
        j ∉ nodes.take pos →
        neighbor_in_way nodes j =
          if pos + 1 < nodes.length then nodes.get? (pos + 1)
          else if 0 < pos then nodes.get? (pos - 1) else none := by
  constructor
  · intro hj
    have hnone : nodes.findIdx? (· = j) = none := by
      rw [List.findIdx?_eq_none_iff]
      intro x hx
      simp only [decide_eq_false_iff_not]
      exact fun hh => hj (hh ▸ hx)
    simp [neighbor_in_way, hnone]
  · intro pos h1 h2 h3
    unfold neighbor_in_way
    rw [findIdx?_first h1 h2 h3]
    by_cases hlt : pos + 1 < nodes.length
    · rw [List.get?_eq_get hlt]
      simp [hlt]
    · have hnone : nodes[pos + 1]? = none := List.getElem?_eq_none (by omega)
      simp [hnone, hlt]

/-- C6 (witness): in the loop way `[5, 7, 5, 9]` the junction node 5
occurs twice; the selection returns 7, the node after the first
occurrence. -/
theorem neighbor_selection_spec_witness : neighbor_in_way [5, 7, 5, 9] 5 = some 7 := by
  have h := (neighbor_selection_spec [5, 7, 5, 9] 5).2 0 (by decide) (by decide) (by decide)
  simpa using h

/-! ## Bounding box handling in passes 2 and 3: C7 -/

theorem lookupA_isSome_updateA {κ α : Type} [DecidableEq κ] (m : List (κ × α)) (k k' : κ)
    (f : Option α → α) (h : (lookupA m k').isSome = true) :
    (lookupA (updateA m k f) k').isSome = true := by
  by_cases hk : k' = k
  · subst hk; simp [lookupA_updateA_self]
  · rwa [lookupA_updateA_other _ _ _ _ hk]

theorem pass2_step_preserves (cands : List Int) (a b c d : ℚ)
    (m : List (Int × (ℚ × ℚ))) (e : Element) (nid : Int)
    (h : (lookupA m nid).isSome = true) :
    (lookupA (pass2_step cands a b c d m e) nid).isSome = true := by
  cases e with
  | way _ _ _ => exact h
  | node id lat lon =>
      dsimp only [pass2_step]
      by_cases hin : id ∈ cands
      · rw [if_pos hin]
        by_cases hbox : a ≤ lon ∧ lon ≤ c ∧ b ≤ lat ∧ lat ≤ d
        · rw [if_pos hbox]
          exact lookupA_isSome_updateA _ _ _ _ h
        · rw [if_neg hbox]
          exact h
      · rw [if_neg hin]
        exact h

theorem pass2_fold_preserves (elements : List Element) (cands : List Int) (a b c d : ℚ)
    (m : List (Int × (ℚ × ℚ))) (nid : Int) (h : (lookupA m nid).isSome = true) :
    (lookupA (elements.foldl (pass2_step cands a b c d) m) nid).isSome = true := by
  induction elements generalizing m with
  | nil => exact h
  | cons e rest ih => exact ih _ (pass2_step_preserves _ _ _ _ _ _ e _ h)

theorem pass3_step_preserves (nids : List Int) (m : List (Int × (ℚ × ℚ))) (e : Element)
    (nid : Int) (h : (lookupA m nid).isSome = true) :
    (lookupA (pass3_step nids m e) nid).isSome = true := by
  cases e with
  | way _ _ _ => exact h
  | node id lat lon =>
      dsimp only [pass3_step]
      by_cases hin : id ∈ nids
      · rw [if_pos hin]
        exact lookupA_isSome_updateA _ _ _ _ h
      · rw [if_neg hin]
        exact h

theorem pass3_fold_preserves (elements : List Element) (nids : List Int)
    (m : List (Int × (ℚ × ℚ))) (nid : Int) (h : (lookupA m nid).isSome = true) :
    (lookupA (elements.foldl (pass3_step nids) m) nid).isSome = true := by
  induction elements generalizing m with
  | nil => exact h
  | cons e rest ih => exact ih _ (pass3_step_preserves _ _ e _ h)

/-- C7: pass 2 retains a candidate whose coordinate satisfies the four
inclusive comparisons — in particular one lying exactly on a
bounding-box edge — while pass 3 records a neighbor's coordinate with
no bounding-box condition at all, so a neighbor outside the bbox is
retained. -/
theorem bbox_pass2_inclusive_pass3_unfiltered (elements : List Element)
    (cands nids : List Int) (min_lon min_lat max_lon max_lat : ℚ)
    (nid : Int) (lat lon : ℚ) :
    (Element.node nid lat lon ∈ elements → nid ∈ cands →
      min_lon ≤ lon → lon ≤ max_lon → min_lat ≤ lat → lat ≤ max_lat →
      (lookupA (pass2 elements cands min_lon min_lat max_lon max_lat) nid).isSome = true)
    ∧ (Element.node nid lat lon ∈ elements → nid ∈ nids →
      (lookupA (pass3 elements nids) nid).isSome = true) := by
  constructor
  · intro he hc h1 h2 h3 h4
    unfold pass2
    generalize hm : ([] : List (Int × (ℚ × ℚ))) = m
    clear hm
    induction elements generalizing m with
    | nil => simp at he
    | cons e rest ih =>
        rcases List.mem_cons.1 he with rfl | hrest
        · rw [List.foldl_cons]
          refine pass2_fold_preserves rest cands _ _ _ _ _ nid ?_
          dsimp only [pass2_step]
          rw [if_pos hc, if_pos ⟨h1, h2, h3, h4⟩]
          simp [lookupA_updateA_self]
        · exact ih hrest _
  · intro he hn
    unfold pass3
    generalize hm : ([] : List (Int × (ℚ × ℚ))) = m
    clear hm
    induction elements generalizing m with
    | nil => simp at he
    | cons e rest ih =>
        rcases List.mem_cons.1 he with rfl | hrest
        · rw [List.foldl_cons]
          refine pass3_fold_preserves rest nids _ nid ?_
          dsimp only [pass3_step]
          rw [if_pos hn]
          simp [lookupA_updateA_self]
        · exact ih hrest _

/-- C7 (witness): node 1 sits exactly on the bbox edge
(`lon = min_lon`) and is retained by pass 2; node 2 lies far outside
the same bbox and is still retained by pass 3. -/
theorem bbox_pass2_inclusive_pass3_unfiltered_witness :
    (lookupA (pass2 [Element.node 1 5 0, Element.node 2 100 200] [1] 0 0 10 10) 1).isSome = true
    ∧ (lookupA (pass3 [Element.node 1 5 0, Element.node 2 100 200] [2]) 2).isSome = true := by
  constructor
  · exact (bbox_pass2_inclusive_pass3_unfiltered
      [Element.node 1 5 0, Element.node 2 100 200] [1] [2] 0 0 10 10 1 5 0).1
      (by simp) (by simp) (by norm_num) (by norm_num) (by norm_num) (by norm_num)
  · exact (bbox_pass2_inclusive_pass3_unfiltered
      [Element.node 1 5 0, Element.node 2 100 200] [1] [2] 0 0 10 10 2 100 200).2
      (by simp) (by simp)

/-! ## Angle decomposition: C3, C4 -/

theorem calculate_bearing_bounds (hb : ℚ → ℚ → ℚ → ℚ → ℚ) (la lo lat lon : ℚ)
    (h1 : -360 < hb la lo lat lon) (h2 : hb la lo lat lon < 360) :
    0 ≤ calculate_bearing hb la lo lat lon ∧ calculate_bearing hb la lo lat lon < 360 := by
  unfold calculate_bearing
  by_cases hneg : hb la lo lat lon < 0
  · rw [if_pos hneg]
    constructor <;> linarith
  · rw [if_neg hneg]
    push_neg at hneg
    exact ⟨hneg, h2⟩

theorem rustRound_bounds (x : ℚ) (h0 : 0 ≤ x) (h360 : x ≤ 360) :
    0 ≤ rustRound x ∧ rustRound x ≤ 360
    ∧ x - 1 / 2 ≤ (rustRound x : ℚ) ∧ (rustRound x : ℚ) ≤ x + 1 / 2 := by
  unfold rustRound
  rw [if_pos h0]
  have hfl : ((⌊x + 1 / 2⌋ : ℤ) : ℚ) ≤ x + 1 / 2 := Int.floor_le _
  have hfg : x + 1 / 2 - 1 < ((⌊x + 1 / 2⌋ : ℤ) : ℚ) := Int.sub_one_lt_floor _
  refine ⟨Int.floor_nonneg.2 (by linarith), ?_, by linarith, hfl⟩
  have hlt : ((⌊x + 1 / 2⌋ : ℤ) : ℚ) < 361 := by linarith
  exact_mod_cast Int.lt_add_one_iff.1 (by exact_mod_cast hlt)

theorem i16sat_eq_self (n : ℤ) (h1 : -32768 ≤ n) (h2 : n ≤ 32767) : i16sat n = n := by
  unfold i16sat
  omega

theorem calc_angles_shape (hb : ℚ → ℚ → ℚ → ℚ → ℚ) (clat clon : ℚ)
    (pts : List (ℚ × ℚ)) (hlen : pts.length = 3) :
    ∃ b0 b1 b2,
      List.insertionSort (· ≤ ·)
          (pts.map fun p => calculate_bearing hb clat clon p.1 p.2) = [b0, b1, b2]
      ∧ calculate_junction_angles hb clat clon pts
        = some ((i16sat (rustRound (b1 - b0)), i16sat (rustRound (b2 - b1)),
            i16sat (rustRound (360 - b2 + b0))), (b0, b1, b2)) := by
  have hlen3 : (List.insertionSort (· ≤ ·)
      (pts.map fun p => calculate_bearing hb clat clon p.1 p.2)).length = 3 := by
    simp [hlen]
  obtain ⟨b0, b1, b2, heq⟩ := List.length_eq_three.1 hlen3
  refine ⟨b0, b1, b2, heq, ?_⟩
  unfold calculate_junction_angles
  rw [if_neg (by simp [hlen])]
  simp only [heq]

theorem calc_angles_facts (hb : ℚ → ℚ → ℚ → ℚ → ℚ) (clat clon : ℚ)
    (pts : List (ℚ × ℚ))
    (hrange : ∀ p ∈ pts, -360 < hb clat clon p.1 p.2 ∧ hb clat clon p.1 p.2 < 360)
    (angles : ℤ × ℤ × ℤ) (b0 b1 b2 : ℚ)
    (h : calculate_junction_angles hb clat clon pts = some (angles, (b0, b1, b2))) :
    List.Sorted (· ≤ ·) [b0, b1, b2]
    ∧ List.Perm [b0, b1, b2] (pts.map fun p => calculate_bearing hb clat clon p.1 p.2)
    ∧ angles = (rustRound (b1 - b0), rustRound (b2 - b1), rustRound (360 - b2 + b0))
    ∧ (0 ≤ angles.1 ∧ angles.1 ≤ 360) ∧ (0 ≤ angles.2.1 ∧ angles.2.1 ≤ 360)
    ∧ (0 ≤ angles.2.2 ∧ angles.2.2 ≤ 360)
    ∧ 359 ≤ angles.1 + angles.2.1 + angles.2.2
    ∧ angles.1 + angles.2.1 + angles.2.2 ≤ 361 := by
  have hlen : pts.length = 3 := by
    by_contra hne
    rw [calculate_junction_angles, if_pos hne] at h
    exact Option.noConfusion h
  obtain ⟨b0', b1', b2', hsort, hval⟩ := calc_angles_shape hb clat clon pts hlen
  rw [hval] at h
  have hpair := Option.some.inj h
  have hang : (i16sat (rustRound (b1' - b0')), i16sat (rustRound (b2' - b1')),
      i16sat (rustRound (360 - b2' + b0'))) = angles := congrArg Prod.fst hpair
  have hbear : (b0', b1', b2') = (b0, b1, b2) := congrArg Prod.snd hpair
  have e0 : b0' = b0 := congrArg (fun t => t.1) hbear
  have e1 : b1' = b1 := congrArg (fun t => t.2.1) hbear
  have e2 : b2' = b2 := congrArg (fun t => t.2.2) hbear
  rw [e0, e1, e2] at hsort
  rw [e0, e1, e2] at hang
  have hsorted : List.Sorted (· ≤ ·) [b0, b1, b2] := by
    rw [← hsort]
    exact List.sorted_insertionSort _ _
  have hperm : List.Perm [b0, b1, b2]
      (pts.map fun p => calculate_bearing hb clat clon p.1 p.2) := by
    rw [← hsort]
    exact List.perm_insertionSort _ _
  have hmemB : ∀ x ∈ [b0, b1, b2], 0 ≤ x ∧ x < 360 := by
    intro x hx
    have hx' := hperm.mem_iff.1 hx
    obtain ⟨p, hp, rfl⟩ := List.mem_map.1 hx'
    exact calculate_bearing_bounds hb clat clon p.1 p.2 (hrange p hp).1 (hrange p hp).2
  obtain ⟨hB0, hB0'⟩ := hmemB b0 (by simp)
  obtain ⟨hB1, hB1'⟩ := hmemB b1 (by simp)
  obtain ⟨hB2, hB2'⟩ := hmemB b2 (by simp)
  have h01 : b0 ≤ b1 := by
    have := List.sorted_cons.1 hsorted
    exact this.1 b1 (by simp)
  have h12 : b1 ≤ b2 := by
    have := List.sorted_cons.1 (List.sorted_cons.1 hsorted).2
    exact this.1 b2 (by simp)
  have hr1 := rustRound_bounds (b1 - b0) (by linarith) (by linarith)
  have hr2 := rustRound_bounds (b2 - b1) (by linarith) (by linarith)
  have hr3 := rustRound_bounds (360 - b2 + b0) (by linarith) (by linarith)
  have hs1 : i16sat (rustRound (b1 - b0)) = rustRound (b1 - b0) :=
    i16sat_eq_self _ (by omega) (by omega)
  have hs2 : i16sat (rustRound (b2 - b1)) = rustRound (b2 - b1) :=
    i16sat_eq_self _ (by omega) (by omega)
  have hs3 : i16sat (rustRound (360 - b2 + b0)) = rustRound (360 - b2 + b0) :=
    i16sat_eq_self _ (by omega) (by omega)
  have hangles : angles = (rustRound (b1 - b0), rustRound (b2 - b1),
      rustRound (360 - b2 + b0)) := by
    rw [← hang, hs1, hs2, hs3]
  have ha1 : angles.1 = rustRound (b1 - b0) := by rw [hangles]
  have ha2 : angles.2.1 = rustRound (b2 - b1) := by rw [hangles]
  have ha3 : angles.2.2 = rustRound (360 - b2 + b0) := by rw [hangles]
  refine ⟨hsorted, hperm, hangles, ⟨by omega, by omega⟩, ⟨by omega, by omega⟩,
    ⟨by omega, by omega⟩, ?_, ?_⟩
  · rw [ha1, ha2, ha3]
    have hsum : ((rustRound (b1 - b0) + rustRound (b2 - b1)
        + rustRound (360 - b2 + b0) : ℤ) : ℚ) > 358 := by
      push_cast
      linarith [hr1.2.2.1, hr2.2.2.1, hr3.2.2.1]
    have : (358 : ℤ) < rustRound (b1 - b0) + rustRound (b2 - b1)
        + rustRound (360 - b2 + b0) := by exact_mod_cast hsum
    omega
  · rw [ha1, ha2, ha3]
    have hsum : ((rustRound (b1 - b0) + rustRound (b2 - b1)
        + rustRound (360 - b2 + b0) : ℤ) : ℚ) < 362 := by
      push_cast
      linarith [hr1.2.2.2, hr2.2.2.2, hr3.2.2.2]
    have : rustRound (b1 - b0) + rustRound (b2 - b1)
        + rustRound (360 - b2 + b0) < (362 : ℤ) := by exact_mod_cast hsum
    omega

/-- C3: `calculate_junction_angles` returns `None` exactly when the
neighbor list does not have exactly three entries; for a three-neighbor
input (with the bearing library honoring its `(-360, 360)` output
range) the returned bearings are the three center→neighbor bearings
sorted ascending (a sorted permutation of them), and the angles are the
consecutive differences `b1 - b0`, `b2 - b1` and the wrap-around
`360 - b2 + b0`, each rounded to the nearest integer. -/
theorem decompose_angles_spec (hb : ℚ → ℚ → ℚ → ℚ → ℚ) (clat clon : ℚ)
    (pts : List (ℚ × ℚ)) :
    (calculate_junction_angles hb clat clon pts = none ↔ pts.length ≠ 3)
    ∧ ∀ (angles : ℤ × ℤ × ℤ) (b0 b1 b2 : ℚ),
        (∀ p ∈ pts, -360 < hb clat clon p.1 p.2 ∧ hb clat clon p.1 p.2 < 360) →
        calculate_junction_angles hb clat clon pts = some (angles, (b0, b1, b2)) →
        List.Sorted (· ≤ ·) [b0, b1, b2]
        ∧ List.Perm [b0, b1, b2] (pts.map fun p => calculate_bearing hb clat clon p.1 p.2)
        ∧ angles = (rustRound (b1 - b0), rustRound (b2 - b1), rustRound (360 - b2 + b0)) := by
  constructor
  · constructor
    · intro hnone hlen
      obtain ⟨b0, b1, b2, _, hval⟩ := calc_angles_shape hb clat clon pts hlen
      rw [hval] at hnone
      exact Option.noConfusion hnone
    · intro hlen
      rw [calculate_junction_angles, if_pos hlen]
  · intro angles b0 b1 b2 hrange h
    have hf := calc_angles_facts hb clat clon pts hrange angles b0 b1 b2 h
    exact ⟨hf.1, hf.2.1, hf.2.2.1⟩

/-- C3 (witness): a concrete three-neighbor input — bearings 10°, 100°,
250° — comes back sorted with angles `(90, 150, 120)`, the rounded
consecutive differences. -/
theorem decompose_angles_spec_witness :
    List.Sorted (· ≤ ·) [(10 : ℚ), 100, 250]
    ∧ ((90 : ℤ), (150 : ℤ), (120 : ℤ))
        = (rustRound ((100 : ℚ) - 10), rustRound ((250 : ℚ) - 100),
           rustRound ((360 : ℚ) - 250 + 10)) := by
  have heval : calculate_junction_angles (fun _ _ lat _ => lat) 0 0
      [(10, 0), (100, 0), (250, 0)] = some ((90, 150, 120), (10, 100, 250)) := by
    norm_num [calculate_junction_angles, calculate_bearing, List.insertionSort,
      List.orderedInsert, rustRound, i16sat]
  have h := (decompose_angles_spec (fun _ _ lat _ => lat) 0 0
      [(10, 0), (100, 0), (250, 0)]).2 (90, 150, 120) 10 100 250
      (by norm_num) heval
  exact ⟨h.1, h.2.2⟩

/-- C4: every `Some` output of `calculate_junction_angles` (with the
bearing library honoring its output range) has its three angles in
`[0, 360]` and their sum in `[358, 362]` (indeed in `[359, 361]`). -/
theorem decompose_angles_sum_range (hb : ℚ → ℚ → ℚ → ℚ → ℚ) (clat clon : ℚ)
    (pts : List (ℚ × ℚ)) (angles : ℤ × ℤ × ℤ) (bearings : ℚ × ℚ × ℚ)
    (hrange : ∀ p ∈ pts, -360 < hb clat clon p.1 p.2 ∧ hb clat clon p.1 p.2 < 360)
    (h : calculate_junction_angles hb clat clon pts = some (angles, bearings)) :
    (358 ≤ angles.1 + angles.2.1 + angles.2.2 ∧ angles.1 + angles.2.1 + angles.2.2 ≤ 362)
    ∧ (0 ≤ angles.1 ∧ angles.1 ≤ 360) ∧ (0 ≤ angles.2.1 ∧ angles.2.1 ≤ 360)
    ∧ (0 ≤ angles.2.2 ∧ angles.2.2 ≤ 360) := by
  obtain ⟨b0, b1, b2⟩ := bearings
  have hf := calc_angles_facts hb clat clon pts hrange angles b0 b1 b2 h
  obtain ⟨-, -, -, h1, h2, h3, h4, h5⟩ := hf
  exact ⟨⟨by omega, by omega⟩, h1, h2, h3⟩

/-- C4 (witness): bearings 20°, 110°, 200° give angles `(90, 90, 180)`
with sum 360 ∈ [358, 362] and each angle in `[0, 360]`. -/
theorem decompose_angles_sum_range_witness :
    (358 ≤ (90 : ℤ) + 90 + 180 ∧ (90 : ℤ) + 90 + 180 ≤ 362)
    ∧ (0 ≤ (90 : ℤ) ∧ (90 : ℤ) ≤ 360) := by
  have heval : calculate_junction_angles (fun _ _ lat _ => lat) 0 0
      [(110, 0), (20, 0), (200, 0)] = some ((90, 90, 180), (20, 110, 200)) := by
    norm_num [calculate_junction_angles, calculate_bearing, List.insertionSort,
      List.orderedInsert, rustRound, i16sat]
  have h := decompose_angles_sum_range (fun _ _ lat _ => lat) 0 0
      [(110, 0), (20, 0), (200, 0)] (90, 90, 180) (20, 110, 200)
      (by norm_num) heval
  exact ⟨h.1, h.2.1⟩

/-! ## The per-candidate assembly and the T-junction filter: C2, C5 -/

theorem pseudoBearing_range (la lo lat lon : ℚ) :
    -360 < pseudoBearing la lo lat lon ∧ pseudoBearing la lo lat lon < 360 := by
  unfold pseudoBearing
  split
  · next h => exact h
  · norm_num

theorem emit_junction_some {hb : ℚ → ℚ → ℚ → ℚ → ℚ} {counter : NodeConnectionCounter}
    {ncoords : List (Int × (ℚ × ℚ))} {yj : YJunctionWithCoords} {j : JunctionForInsert}
    (h : emit_junction hb counter ncoords yj = some j) :
    j.osm_node_id = yj.node_id
    ∧ (counter.get_neighboring_nodes yj.node_id).length = 3
    ∧ ∃ angles bearings,
        calculate_junction_angles hb yj.lat yj.lon
          ((counter.get_neighboring_nodes yj.node_id).filterMap
            fun nid => lookupA ncoords nid) = some (angles, bearings)
        ∧ j.angle_1 = angles.1 ∧ j.angle_2 = angles.2.1 ∧ j.angle_3 = angles.2.2
        ∧ min angles.1 (min angles.2.1 angles.2.2) < 60 := by
  simp only [emit_junction] at h
  split at h
  · exact absurd h (by simp)
  · next hlen =>
      push_neg at hlen
      split at h
      · exact absurd h (by simp)
      · split at h
        · exact absurd h (by simp)
        · next angles bearings hcalc =>
            split at h
            · exact absurd h (by simp)
            · next hmin =>
                push_neg at hmin
                have hj := Option.some.inj h
                refine ⟨(congrArg JunctionForInsert.osm_node_id hj).symm ▸ rfl, hlen,
                  angles, bearings, hcalc, ?_, ?_, ?_, hmin⟩
                · exact (congrArg JunctionForInsert.angle_1 hj).symm ▸ rfl
                · exact (congrArg JunctionForInsert.angle_2 hj).symm ▸ rfl
                · exact (congrArg JunctionForInsert.angle_3 hj).symm ▸ rfl

theorem mem_parse_pbf {hb : ℚ → ℚ → ℚ → ℚ → ℚ} {elements : List Element}
    {min_lon min_lat max_lon max_lat : ℚ} {j : JunctionForInsert}
    (hj : j ∈ parse_pbf hb elements min_lon min_lat max_lon max_lat) :
    ∃ (yj : YJunctionWithCoords) (ncoords : List (Int × (ℚ × ℚ))),
      emit_junction hb (pass1 elements) ncoords yj = some j := by
  simp only [parse_pbf] at hj
  split at hj
  · simp at hj
  · obtain ⟨yj, _, hemit⟩ := List.mem_filterMap.1 hj
    exact ⟨yj, _, hemit⟩

/-- C2 (counterexample): on a concrete extract where two of a
junction's neighbors share a coordinate (colinear roads), the pipeline
emits a feature with minimum angle 0 — the claimed lower bound
`3 ≤ min(angles)` does not hold. -/
theorem emitted_min_angle_counterexample :
    (parse_pbf pseudoBearing elemsC2 (-10) (-10) 10 10).map minAngle = [0] := by
  norm_num [parse_pbf, pass1, pass1_step, pass2, pass2_step, pass3, pass3_step, elemsC2,
    way_admitted, wayHighway, is_valid_highway_type, valid_highway_types,
    NodeConnectionCounter.empty, NodeConnectionCounter.add_way,
    NodeConnectionCounter.find_y_junction_candidates,
    NodeConnectionCounter.get_neighboring_nodes, neighbor_in_way,
    updateA, lookupA, insertSet, emit_junction,
    calculate_junction_angles, calculate_bearing, pseudoBearing,
    List.insertionSort, List.orderedInsert, rustRound, i16sat, minAngle,
    List.findIdx?, List.filterMap, List.foldl]

/-- C2 (amended): every feature emitted after T-junction rejection
satisfies `0 ≤ min(angles) < 60` (with the bearing library honoring its
output range); the lower bound is 0, not 3 — colinear roads yield a
0-degree minimum angle that passes the filter. -/
theorem emitted_min_angle_bounds (hb : ℚ → ℚ → ℚ → ℚ → ℚ) (elements : List Element)
    (min_lon min_lat max_lon max_lat : ℚ) (j : JunctionForInsert)
    (hrange : ∀ la lo lat lon, -360 < hb la lo lat lon ∧ hb la lo lat lon < 360)
    (hj : j ∈ parse_pbf hb elements min_lon min_lat max_lon max_lat) :
    0 ≤ minAngle j ∧ minAngle j < 60 := by
  obtain ⟨yj, ncoords, hemit⟩ := mem_parse_pbf hj
  obtain ⟨-, -, angles, bearings, hcalc, ha1, ha2, ha3, hmin⟩ := emit_junction_some hemit
  obtain ⟨b0, b1, b2⟩ := bearings
  have hf := calc_angles_facts hb yj.lat yj.lon _
    (fun p _ => hrange yj.lat yj.lon p.1 p.2) angles b0 b1 b2 hcalc
  have h1 := hf.2.2.2.1.1
  have h2 := hf.2.2.2.2.1.1
  have h3 := hf.2.2.2.2.2.1.1
  unfold minAngle
  rw [ha1, ha2, ha3]
  exact ⟨le_min h1 (le_min h2 h3), hmin⟩

/-- C2 (witness): on the `elemsC5` extract the pipeline emits the
feature for node 1, whose minimum angle obeys the amended bounds. -/
theorem emitted_min_angle_bounds_witness :
    let j : JunctionForInsert := ⟨1, 0, 0, 1, 0, 359, (1, 2, 2)⟩
    0 ≤ minAngle j ∧ minAngle j < 60 := by
  have hj : (⟨1, 0, 0, 1, 0, 359, (1, 2, 2)⟩ : JunctionForInsert)
      ∈ parse_pbf pseudoBearing elemsC5 (-10) (-10) 10 10 := by
    norm_num [parse_pbf, pass1, pass1_step, pass2, pass2_step, pass3, pass3_step, elemsC5,
      way_admitted, wayHighway, is_valid_highway_type, valid_highway_types,
      NodeConnectionCounter.empty, NodeConnectionCounter.add_way,
      NodeConnectionCounter.find_y_junction_candidates,
      NodeConnectionCounter.get_neighboring_nodes, neighbor_in_way,
      updateA, lookupA, insertSet, emit_junction,
      calculate_junction_angles, calculate_bearing, pseudoBearing,
      List.insertionSort, List.orderedInsert, rustRound, i16sat,
      List.findIdx?, List.filterMap, List.foldl]
  exact emitted_min_angle_bounds pseudoBearing elemsC5 (-10) (-10) 10 10 _
    pseudoBearing_range hj

theorem mem_addfold (refs : List Int) (wid : Int) (m : List (Int × List Int)) (nid w : Int) :
    w ∈ (lookupA (refs.foldl (fun m node_id => updateA m node_id
        fun o => insertSet (o.getD []) wid) m) nid).getD []
    ↔ w ∈ (lookupA m nid).getD [] ∨ (w = wid ∧ nid ∈ refs) := by
  induction refs generalizing m with
  | nil => simp
  | cons r rest ih =>
      rw [List.foldl_cons, ih]
      by_cases hr : nid = r
      · subst hr
        rw [lookupA_updateA_self]
        simp only [Option.getD_some, mem_insertSet, List.mem_cons]
        tauto
      · rw [lookupA_updateA_other _ _ _ _ hr]
        simp only [List.mem_cons]
        have : ¬nid = r := hr
        tauto

theorem mem_waysOf_add_way (c : NodeConnectionCounter) (wid : Int) (refs : List Int)
    (b t : Bool) (nid w : Int) :
    w ∈ waysOf (c.add_way wid refs b t) nid
    ↔ w ∈ waysOf c nid ∨ (w = wid ∧ nid ∈ refs) := by
  unfold waysOf NodeConnectionCounter.add_way
  exact mem_addfold refs wid c.node_to_ways nid w

theorem mem_waysOf_pass1_aux (elements : List Element) (c0 : NodeConnectionCounter)
    (nid w : Int) :
    w ∈ waysOf (elements.foldl pass1_step c0) nid
    ↔ w ∈ waysOf c0 nid
      ∨ ∃ refs tags, Element.way w refs tags ∈ elements
          ∧ way_admitted tags = true ∧ nid ∈ refs := by
  induction elements generalizing c0 with
  | nil => simp
  | cons e rest ih =>
      rw [List.foldl_cons, ih]
      cases e with
      | node a b c =>
          simp only [pass1_step, List.mem_cons]
          constructor
          · rintro (hc | ⟨refs, tags, hm, ha, hn⟩)
            · exact Or.inl hc
            · exact Or.inr ⟨refs, tags, Or.inr hm, ha, hn⟩
          · rintro (hc | ⟨refs, tags, hm | hm, ha, hn⟩)
            · exact Or.inl hc
            · exact absurd hm (by simp)
            · exact Or.inr ⟨refs, tags, hm, ha, hn⟩
      | way wid refs tags =>
          dsimp only [pass1_step]
          by_cases hadm : way_admitted tags = true
          · rw [if_pos hadm, mem_waysOf_add_way]
            constructor
            · rintro ((hc | ⟨rfl, hn⟩) | ⟨refs', tags', hm, ha, hn⟩)
              · exact Or.inl hc
              · exact Or.inr ⟨refs, tags, List.mem_cons_self _ _, hadm, hn⟩
              · exact Or.inr ⟨refs', tags', List.mem_cons_of_mem _ hm, ha, hn⟩
            · rintro (hc | ⟨refs', tags', hm, ha, hn⟩)
              · exact Or.inl (Or.inl hc)
              · rcases List.mem_cons.1 hm with heq | hm'
                · obtain ⟨rfl, rfl, rfl⟩ : w = wid ∧ refs' = refs ∧ tags' = tags := by
                    injection heq with h1 h2 h3
                    exact ⟨h1, h2, h3⟩
                  exact Or.inl (Or.inr ⟨rfl, hn⟩)
                · exact Or.inr ⟨refs', tags', hm', ha, hn⟩
          · rw [if_neg hadm]
            constructor
            · rintro (hc | ⟨refs', tags', hm, ha, hn⟩)
              · exact Or.inl hc
              · exact Or.inr ⟨refs', tags', List.mem_cons_of_mem _ hm, ha, hn⟩
            · rintro (hc | ⟨refs', tags', hm, ha, hn⟩)
              · exact Or.inl hc
              · rcases List.mem_cons.1 hm with heq | hm'
                · obtain ⟨rfl, rfl, rfl⟩ : w = wid ∧ refs' = refs ∧ tags' = tags := by
                    injection heq with h1 h2 h3
                    exact ⟨h1, h2, h3⟩
                  exact absurd ha hadm
                · exact Or.inr ⟨refs', tags', hm', ha, hn⟩

theorem addfold_nodup (refs : List Int) (wid : Int) (m : List (Int × List Int))
    (h : ∀ nid, ((lookupA m nid).getD ([] : List Int)).Nodup) :
    ∀ nid, ((lookupA (refs.foldl (fun m node_id => updateA m node_id
        fun o => insertSet (o.getD []) wid) m) nid).getD ([] : List Int)).Nodup := by
  induction refs generalizing m with
  | nil => exact h
  | cons r rest ih =>
      rw [List.foldl_cons]
      apply ih
      intro nid
      by_cases hr : nid = r
      · subst hr
        rw [lookupA_updateA_self]
        exact nodup_insertSet (h nid)
      · rw [lookupA_updateA_other _ _ _ _ hr]
        exact h nid

theorem pass1_aux_nodup (elements : List Element) (c0 : NodeConnectionCounter)
    (h : ∀ nid, (waysOf c0 nid).Nodup) :
    ∀ nid, (waysOf (elements.foldl pass1_step c0) nid).Nodup := by
  induction elements generalizing c0 with
  | nil => exact h
  | cons e rest ih =>
      rw [List.foldl_cons]
      apply ih
      cases e with
      | node a b c => exact h
      | way wid refs tags =>
          dsimp only [pass1_step]
          by_cases hadm : way_admitted tags = true
          · rw [if_pos hadm]
            exact addfold_nodup refs wid c0.node_to_ways h
          · rw [if_neg hadm]
            exact h

theorem mem_keys_updateA {κ α : Type} [DecidableEq κ] {m : List (κ × α)} {k k' : κ}
    {f : Option α → α} (h : k' ∈ (updateA m k f).map Prod.fst) :
    k' ∈ m.map Prod.fst ∨ k' = k := by
  induction m with
  | nil => simpa [updateA] using h
  | cons p rest ih =>
      obtain ⟨k₀, v₀⟩ := p
      by_cases h0 : k₀ = k
      · subst h0
        have he : updateA ((k₀, v₀) :: rest) k₀ f = (k₀, f (some v₀)) :: rest := by
          simp [updateA]
        rw [he] at h
        simp only [List.map_cons, List.mem_cons] at h ⊢
        tauto
      · have he : updateA ((k₀, v₀) :: rest) k f = (k₀, v₀) :: updateA rest k f := by
          simp [updateA, h0]
        rw [he] at h
        simp only [List.map_cons, List.mem_cons] at h ⊢
        rcases h with rfl | h
        · tauto
        · rcases ih h with hm | hm <;> tauto

theorem keys_nodup_updateA {κ α : Type} [DecidableEq κ] (m : List (κ × α)) (k : κ)
    (f : Option α → α) (h : (m.map Prod.fst).Nodup) :
    ((updateA m k f).map Prod.fst).Nodup := by
  induction m with
  | nil => simp [updateA]
  | cons p rest ih =>
      obtain ⟨k', v⟩ := p
      simp only [List.map_cons, List.nodup_cons] at h
      by_cases hk : k' = k
      · subst hk
        have he : updateA ((k', v) :: rest) k' f = (k', f (some v)) :: rest := by
          simp [updateA]
        rw [he]
        simp only [List.map_cons, List.nodup_cons]
        exact h
      · have he : updateA ((k', v) :: rest) k f = (k', v) :: updateA rest k f := by
          simp [updateA, hk]
        rw [he]
        simp only [List.map_cons, List.nodup_cons]
        refine ⟨fun hmem => ?_, ih h.2⟩
        rcases mem_keys_updateA hmem with hm | rfl
        · exact h.1 hm
        · exact hk rfl

theorem addfold_keys_nodup (refs : List Int) (wid : Int) (m : List (Int × List Int))
    (h : (m.map Prod.fst).Nodup) :
    ((refs.foldl (fun m node_id => updateA m node_id
        fun o => insertSet (o.getD []) wid) m).map Prod.fst).Nodup := by
  induction refs generalizing m with
  | nil => exact h
  | cons r rest ih =>
      rw [List.foldl_cons]
      exact ih _ (keys_nodup_updateA m r _ h)

theorem pass1_aux_keys_nodup (elements : List Element) (c0 : NodeConnectionCounter)
    (h : (c0.node_to_ways.map Prod.fst).Nodup) :
    (((elements.foldl pass1_step c0).node_to_ways).map Prod.fst).Nodup := by
  induction elements generalizing c0 with
  | nil => exact h
  | cons e rest ih =>
      rw [List.foldl_cons]
      apply ih
      cases e with
      | node a b c => exact h
      | way wid refs tags =>
          dsimp only [pass1_step]
          by_cases hadm : way_admitted tags = true
          · rw [if_pos hadm]
            exact addfold_keys_nodup refs wid c0.node_to_ways h
          · rw [if_neg hadm]
            exact h

theorem lookupA_eq_of_mem {κ α : Type} [DecidableEq κ] {m : List (κ × α)} {k : κ} {v : α}
    (hnd : (m.map Prod.fst).Nodup) (hmem : (k, v) ∈ m) : lookupA m k = some v := by
  induction m with
  | nil => simp at hmem
  | cons p rest ih =>
      obtain ⟨k', v'⟩ := p
      simp only [List.map_cons, List.nodup_cons] at hnd
      rcases List.mem_cons.1 hmem with heq | hmem'
      · obtain ⟨rfl, rfl⟩ : k' = k ∧ v' = v := by
          injection heq.symm with h1 h2
          exact ⟨h1, h2⟩
        simp [lookupA]
      · have hk : k' ≠ k := by
          rintro rfl
          exact hnd.1 (List.mem_map.2 ⟨(k', v), hmem', rfl⟩)
        simp only [lookupA, if_neg hk]
        exact ih hnd.2 hmem'

theorem mem_of_lookupA_eq {κ α : Type} [DecidableEq κ] {m : List (κ × α)} {k : κ} {v : α}
    (h : lookupA m k = some v) : (k, v) ∈ m := by
  induction m with
  | nil => simp [lookupA] at h
  | cons p rest ih =>
      obtain ⟨k', v'⟩ := p
      by_cases hk : k' = k
      · subst hk
        have he : lookupA ((k', v') :: rest) k' = some v' := by simp [lookupA]
        rw [he] at h
        obtain rfl : v' = v := Option.some.inj h
        exact List.mem_cons_self _ _
      · simp only [lookupA, if_neg hk] at h
        exact List.mem_cons_of_mem _ (ih h)

/-- C5 (counterexample): two parallel ways 1–2 plus a way 1–3 make node
1 a candidate; it is retained and emitted although its three neighbor
selections are `[2, 2, 3]` — three successes that are not three
distinct node ids. -/
theorem candidates_retention_counterexample :
    (parse_pbf pseudoBearing elemsC5 (-10) (-10) 10 10).map (·.osm_node_id) = [1]
    ∧ (pass1 elemsC5).get_neighboring_nodes 1 = [2, 2, 3] := by
  constructor
  · norm_num [parse_pbf, pass1, pass1_step, pass2, pass2_step, pass3, pass3_step, elemsC5,
      way_admitted, wayHighway, is_valid_highway_type, valid_highway_types,
      NodeConnectionCounter.empty, NodeConnectionCounter.add_way,
      NodeConnectionCounter.find_y_junction_candidates,
      NodeConnectionCounter.get_neighboring_nodes, neighbor_in_way,
      updateA, lookupA, insertSet, emit_junction,
      calculate_junction_angles, calculate_bearing, pseudoBearing,
      List.insertionSort, List.orderedInsert, rustRound, i16sat,
      List.findIdx?, List.filterMap, List.foldl]
  · decide

/-- C5 (amended): a node is a candidate iff its set of incident
admitted ways (characterized against the element stream, and free of
duplicates) has cardinality exactly 3, and a candidate reaching feature
assembly has all three neighbor selections succeed — the three neighbor
node ids need not be distinct. -/
theorem candidates_and_retention (hb : ℚ → ℚ → ℚ → ℚ → ℚ) (elements : List Element)
    (min_lon min_lat max_lon max_lat : ℚ) (nid w : Int) (j : JunctionForInsert) :
    ((∃ cand ∈ (pass1 elements).find_y_junction_candidates, cand.node_id = nid)
        ↔ (waysOf (pass1 elements) nid).length = 3)
    ∧ (w ∈ waysOf (pass1 elements) nid
        ↔ ∃ refs tags, Element.way w refs tags ∈ elements
            ∧ way_admitted tags = true ∧ nid ∈ refs)
    ∧ (waysOf (pass1 elements) nid).Nodup
    ∧ (j ∈ parse_pbf hb elements min_lon min_lat max_lon max_lat →
        ((pass1 elements).get_neighboring_nodes j.osm_node_id).length = 3) := by
  have hkeys : (((pass1 elements).node_to_ways).map Prod.fst).Nodup :=
    pass1_aux_keys_nodup elements NodeConnectionCounter.empty (by simp [NodeConnectionCounter.empty])
  refine ⟨?_, ?_, ?_, ?_⟩
  · constructor
    · rintro ⟨cand, hcand, rfl⟩
      obtain ⟨p, hp, hif⟩ := List.mem_filterMap.1 hcand
      by_cases hlen : p.2.length = 3
      · rw [if_pos hlen] at hif
        have hc := Option.some.inj hif
        have h1 : p.1 = cand.node_id := congrArg YJunctionCandidate.node_id hc
        have h2 : p.2 = cand.connected_ways := congrArg YJunctionCandidate.connected_ways hc
        have hlk : lookupA (pass1 elements).node_to_ways cand.node_id = some p.2 := by
          rw [← h1]
          exact lookupA_eq_of_mem hkeys (by rcases p with ⟨a, b⟩; exact hp)
        unfold waysOf
        rw [hlk]
        simpa using hlen
      · rw [if_neg hlen] at hif
        exact Option.noConfusion hif
    · intro hlen
      unfold waysOf at hlen
      cases hlk : lookupA (pass1 elements).node_to_ways nid with
      | none => rw [hlk] at hlen; simp at hlen
      | some ws =>
          rw [hlk] at hlen
          simp only [Option.getD_some] at hlen
          refine ⟨⟨nid, ws⟩, ?_, rfl⟩
          exact List.mem_filterMap.2 ⟨(nid, ws), mem_of_lookupA_eq hlk, by rw [if_pos hlen]⟩
  · have := mem_waysOf_pass1_aux elements NodeConnectionCounter.empty nid w
    unfold pass1
    rw [this]
    simp [waysOf, NodeConnectionCounter.empty, lookupA]
  · exact pass1_aux_nodup elements NodeConnectionCounter.empty
      (by intro n; simp [waysOf, NodeConnectionCounter.empty, lookupA]) nid
  · intro hj
    obtain ⟨yj, ncoords, hemit⟩ := mem_parse_pbf hj
    obtain ⟨hid, hlen, -⟩ := emit_junction_some hemit
    rw [hid]
    exact hlen

/-- C5 (witness): on the `elemsC5` extract the emitted feature's
junction (node 1) indeed has three successful neighbor selections. -/
theorem candidates_and_retention_witness :
    ((pass1 elemsC5).get_neighboring_nodes 1).length = 3 := by
  have hj : (⟨1, 0, 0, 1, 0, 359, (1, 2, 2)⟩ : JunctionForInsert)
      ∈ parse_pbf pseudoBearing elemsC5 (-10) (-10) 10 10 := by
    norm_num [parse_pbf, pass1, pass1_step, pass2, pass2_step, pass3, pass3_step, elemsC5,
      way_admitted, wayHighway, is_valid_highway_type, valid_highway_types,
      NodeConnectionCounter.empty, NodeConnectionCounter.add_way,
      NodeConnectionCounter.find_y_junction_candidates,
      NodeConnectionCounter.get_neighboring_nodes, neighbor_in_way,
      updateA, lookupA, insertSet, emit_junction,
      calculate_junction_angles, calculate_bearing, pseudoBearing,
      List.insertionSort, List.orderedInsert, rustRound, i16sat,
      List.findIdx?, List.filterMap, List.foldl]
  exact (candidates_and_retention pseudoBearing elemsC5 (-10) (-10) 10 10 1 0
    ⟨1, 0, 0, 1, 0, 359, (1, 2, 2)⟩).2.2.2 hj

/-! ## Positional tag pairing across the bearing sort: C1 -/

/-- C1 (code evaluation at the failing input): the only tag pairing the
code has, `get_neighbors_with_tags`, yields the junction's tags in
way-set iteration order `[bridge, plain, plain]`, while
`calculate_junction_angles` sorts the bearings alone into
`(100, 200, 300)` — an order in which the bridge way (bearing 200) is
second.  The joint `(bearing, tag)` sort mandated by the spec yields
`[plain, bridge, plain]`, so the positional pairing the pipeline stores
is not the tag of the way whose sorted bearing sits at the same index.
(The pipeline in parser.rs never reads bridge/tunnel tags at all and
never applies the sort permutation to them.) -/
theorem tag_permutation_failing_input :
    (counterC1.get_neighbors_with_tags 1).map Prod.snd
        = [⟨true, false⟩, ⟨false, false⟩, ⟨false, false⟩]
    ∧ (calculate_junction_angles pseudoBearing 0 0
        ((counterC1.get_neighbors_with_tags 1).map fun p => coordC1 p.1)).map (·.2)
        = some (100, 200, 300)
    ∧ (spec_joint_sort pseudoBearing 0 0 pairsC1).map Prod.snd
        = [⟨false, false⟩, ⟨true, false⟩, ⟨false, false⟩]
    ∧ (counterC1.get_neighbors_with_tags 1).map Prod.snd
        ≠ (spec_joint_sort pseudoBearing 0 0 pairsC1).map Prod.snd := by
  have h1 : (counterC1.get_neighbors_with_tags 1).map Prod.snd
      = [⟨true, false⟩, ⟨false, false⟩, ⟨false, false⟩] := by decide
  have hpts : ((counterC1.get_neighbors_with_tags 1).map fun p => coordC1 p.1)
      = [(200, 0), (100, 0), (300, 0)] := by decide
  have h2 : (calculate_junction_angles pseudoBearing 0 0
      ((counterC1.get_neighbors_with_tags 1).map fun p => coordC1 p.1)).map (·.2)
      = some (100, 200, 300) := by
    rw [hpts]
    norm_num [calculate_junction_angles, calculate_bearing, pseudoBearing,
      List.insertionSort, List.orderedInsert, rustRound, i16sat]
  have hpairs : pairsC1 = [((200, 0), ⟨true, false⟩), ((100, 0), ⟨false, false⟩),
      ((300, 0), ⟨false, false⟩)] := by decide
  have h3 : (spec_joint_sort pseudoBearing 0 0 pairsC1).map Prod.snd
      = [⟨false, false⟩, ⟨true, false⟩, ⟨false, false⟩] := by
    rw [spec_joint_sort, hpairs]
    norm_num [bearingLe, calculate_bearing, pseudoBearing,
      List.insertionSort, List.orderedInsert]
  refine ⟨h1, h2, h3, ?_⟩
  rw [h1, h3]
  decide

end YJ
